import Mathlib

/-!
Verification of `boxmot/engine/evolve.py`: the hyperparameter-tuning driver
for BoxMOT trackers.  The module converts a YAML parameter schema into a
Ray Tune search space, evaluates candidate configurations through the
tracker-evaluation pipeline, and runs (or resumes) a Ray `Tuner` over a
fixed trial budget.

Shallow embedding conventions:
* Python dicts become association lists (`List (String × _)`) or, where the
  dict is consumed only pointwise, functions into `Option`.
* Numeric metric values are modelled as `ℚ`.
* The Ray Tune library itself is not part of the repository source; where a
  claim depends on scheduler behaviour the library provides, that behaviour
  is modelled from the specification and the definition's doc comment says
  so explicitly.
-/

namespace Evolve

/-- A scalar value that can appear in a YAML schema's `options` / `values`
lists or be drawn by a sampler (the schemas use numbers and strings). -/
inductive Val where
  | num (q : ℚ)
  | str (s : String)
  deriving DecidableEq, Repr

/-- One parameter descriptor from the YAML schema: the Python dict
`details` with its `type`, `range`, `options` and `values` fields
(`details.get("type")` yields `none` when the field is absent). -/
structure ParamDetails where
  type : Option String
  range : List ℚ
  options : List Val
  values : List Val
  deriving DecidableEq, Repr

/-- A Ray Tune sampler object, as constructed by `yaml_to_search_space`:
`tune.uniform`, `tune.randint`, `tune.qrandint`, `tune.choice`,
`tune.grid_search`, `tune.loguniform`. -/
inductive SpaceEntry where
  | uniform (low high : ℚ)
  | randint (low high : ℚ)
  | qrandint (low high q : ℚ)
  | choice (options : List Val)
  | grid_search (values : List Val)
  | loguniform (low high : ℚ)
  deriving DecidableEq, Repr

/-- The body of one iteration of the `for param, details in config.items()`
loop of `yaml_to_search_space`: dispatch on `details.get("type")`; a kind
outside the six recognized strings adds nothing (there is no `else`
branch in the source).  Numeric kinds star-unpack `details["range"]`
(two positional arguments, three for `qrandint`). -/
def buildEntry (details : ParamDetails) : Option SpaceEntry :=
  let t := details.type
  if t = some "uniform" then
    some (.uniform (details.range.getD 0 0) (details.range.getD 1 0))
  else if t = some "randint" then
    some (.randint (details.range.getD 0 0) (details.range.getD 1 0))
  else if t = some "qrandint" then
    some (.qrandint (details.range.getD 0 0) (details.range.getD 1 0)
      (details.range.getD 2 0))
  else if t = some "choice" then
    some (.choice details.options)
  else if t = some "grid_search" then
    some (.grid_search details.values)
  else if t = some "loguniform" then
    some (.loguniform (details.range.getD 0 0) (details.range.getD 1 0))
  else
    none

/-- `yaml_to_search_space(config)`: builds the search-space dict by
iterating over the config items; parameters whose descriptor produced no
sampler are absent from the result. -/
def yaml_to_search_space (config : List (String × ParamDetails)) :
    List (String × SpaceEntry) :=
  config.filterMap fun pd => (buildEntry pd.2).map fun e => (pd.1, e)

/-- Modelled from the spec (the samplers' drawing behaviour lives in the
Ray Tune library, which is not part of this repository's source): the set
of values a sampler can draw.  Numeric samplers draw from the half-open
interval `[low, high)` (`qrandint` additionally quantized to step `q`,
offset from `low`); `choice` draws one of its options; `grid_search`
sweeps exactly its listed values. -/
def SpaceEntry.canDraw : SpaceEntry → Val → Prop
  | .uniform low high, .num v => low ≤ v ∧ v < high
  | .loguniform low high, .num v => low ≤ v ∧ v < high
  | .randint low high, .num v => (∃ n : ℤ, v = n) ∧ low ≤ v ∧ v < high
  | .qrandint low high q, .num v =>
      (∃ n : ℤ, v = n) ∧ low ≤ v ∧ v < high ∧ ∃ k : ℤ, v - low = k * q
  | .choice options, v => v ∈ options
  | .grid_search values, v => v ∈ values
  | _, .str _ => False

/-- The metrics payload returned by `run_trackeval`: a mapping from metric
name to numeric value (a Python dict's keys are unique).
`results.get(k)` is `lookupMetric results k`: the value stored under `k`,
or `None` (here `none`) when `k` is absent. -/
def lookupMetric (results : List (String × ℚ)) (k : String) : Option ℚ :=
  match results with
  | [] => none
  | (k', v) :: rest => if k = k' then some v else lookupMetric rest k

/-- `Tracker.objective_function`'s final line,
`{k: results.get(k) for k in self.opt.objectives}`: project the payload
onto the requested objective names; `dict.get` yields `None` (here
`none`) for a metric name absent from the payload, never an exception. -/
def projectObjectives (objectives : List String)
    (results : List (String × ℚ)) : List (String × Option ℚ) :=
  objectives.map fun k => (k, lookupMetric results k)

/-- An error escaping one of the external collaborators
(`run_generate_mot_results` / `run_trackeval`). -/
structure EvalErr where
  msg : String
  deriving DecidableEq, Repr

/-- A candidate configuration: one point of the search space, as passed by
Ray Tune to the trainable. -/
abbrev Config := List (String × Val)

/-- One call made by `Tracker.objective_function` to an external
collaborator, recorded in invocation order. -/
inductive EvalCall where
  | genMotResults (cfg : Config)
  | runTrackeval
  deriving DecidableEq

/-- The two external collaborators as the evaluator sees them: each either
returns normally or raises (`Except.error`).  `run_trackeval` returns the
full metrics payload. -/
structure Collab where
  run_generate_mot_results : Config → Except EvalErr Unit
  run_trackeval : Except EvalErr (List (String × ℚ))

/-- `Tracker.objective_function(config)`: first
`run_generate_mot_results(self.opt, config)`, then
`results = run_trackeval(self.opt)`, then the projection onto
`self.opt.objectives`.  The returned trace lists the collaborator calls
actually made, in order; an exception from either call propagates
immediately (there is no `try`/retry in the source). -/
def objective_function (c : Collab) (objectives : List String)
    (cfg : Config) :
    List EvalCall × Except EvalErr (List (String × Option ℚ)) :=
  match c.run_generate_mot_results cfg with
  | .error e => ([.genMotResults cfg], .error e)
  | .ok _ =>
    match c.run_trackeval with
    | .error e => ([.genMotResults cfg, .runTrackeval], .error e)
    | .ok results =>
        ([.genMotResults cfg, .runTrackeval],
         .ok (projectObjectives objectives results))

/-- The run-invocation inputs consumed by `main` (argument parsing itself
is out of scope): tracking-method identifier, project output root
(a filesystem path, modelled as its list of segments), the ordered
objective metric names, and the trial budget `n_trials`. -/
structure Args where
  tracking_method : String
  project : List String
  objectives : List String
  n_trials : ℕ
  deriving DecidableEq

/-- The trainable built by
`tune.with_resources(tune_wrapper, {"cpu": NUM_THREADS, "gpu": 0})`:
the wrapped objective function (determined by the `Tracker`'s captured
`opt`, i.e. `args`) together with its per-trial resource request. -/
structure Trainable where
  opt : Args
  cpu : ℕ
  gpu : ℕ
  deriving DecidableEq

/-- The `Tuner` object `main` constructs: either restored from a persisted
run (`tune.Tuner.restore(restore_path, trainable=trainable,
resume_errored=True)`) or fresh
(`tune.Tuner(trainable, param_space=..., tune_config=TuneConfig(
num_samples=..., search_alg=OptunaSearch(metric=..., mode="max")),
run_config=RunConfig(storage_path=..., name=...))`).  Each constructor
carries exactly the arguments the source passes on that branch. -/
inductive TunerSpec where
  | restored (path : List String) (trainable : Trainable)
      (resume_errored : Bool)
  | fresh (trainable : Trainable)
      (param_space : List (String × SpaceEntry))
      (num_samples : ℕ) (metric : String) (mode : String)
      (storage_path : List String) (name : String)
  deriving DecidableEq

/-- Which branch a `TunerSpec` came from. -/
def TunerSpec.isResumed : TunerSpec → Bool
  | .restored _ _ _ => true
  | .fresh _ _ _ _ _ _ _ => false

/-- The trainable passed to the tuner, on either branch. -/
def TunerSpec.trainable : TunerSpec → Trainable
  | .restored _ t _ => t
  | .fresh t _ _ _ _ _ _ => t

/-- The tuner-construction portion of `main`.  Inputs that `main` reads
from the environment are parameters: `num_threads` is the imported
`NUM_THREADS` constant, `can_restore` is `tune.Tuner.can_restore`
(a query on the filesystem state, modelled as a predicate on paths), and
`yaml_cfg` is the parsed content of the tracking method's schema file
(`load_yaml_config(args.tracking_method)`).  Mirrors the source in order:
build the search space, pick `primary_metric = args.objectives[0]`
(for `OptunaSearch(metric=primary_metric, mode="max")`), compute
`tune_name`, `results_dir`, `restore_path`, build the trainable, then
branch on `tune.Tuner.can_restore(restore_path)`. -/
def main_tuner (num_threads : ℕ) (can_restore : List String → Bool)
    (args : Args) (yaml_cfg : List (String × ParamDetails)) : TunerSpec :=
  let search_space := yaml_to_search_space yaml_cfg
  let primary_metric := args.objectives.headI
  let tune_name := args.tracking_method ++ "_tune"
  let results_dir := args.project ++ ["ray"]
  let restore_path := results_dir ++ [tune_name]
  let trainable : Trainable := ⟨args, num_threads, 0⟩
  if can_restore restore_path then
    .restored restore_path trainable true
  else
    .fresh trainable search_space args.n_trials primary_metric "max"
      results_dir tune_name

/-! ### Spec-modelled scheduler

The trial scheduler itself is Ray Tune (`tuner.fit()`), not repository
source.  The following state machine is modelled from the specification's
§4.4 and §5: trials carry a status `pending/running/completed/errored`;
dispatch is bounded by the trial budget (counting already-completed
trials) and by the fixed resource pool; an exception marks the trial
`errored` without aborting the run; resume reclassifies every `errored`
trial back to `pending` and touches no other trial. -/

/-- Trial status, from the spec's data model. -/
inductive TStatus where
  | pending
  | running
  | completed
  | errored
  deriving DecidableEq, Repr

/-- A trial: its id and current status (the objective vector is irrelevant
to the scheduling claims). -/
structure Trial where
  id : ℕ
  status : TStatus
  deriving DecidableEq, Repr

/-- Modelled from the spec: the persisted Run state the scheduler
operates on — the full trial history, in dispatch order. -/
structure RunState where
  trials : List Trial
  deriving DecidableEq, Repr

/-- The empty trial history of a fresh Run. -/
def initRun : RunState := ⟨[]⟩

/-- Modelled from the spec: resume reclassifies a persisted trial —
`errored` becomes `pending` (re-queued for dispatch); any other status is
left untouched. -/
def reclassify (t : Trial) : Trial :=
  if t.status = .errored then { t with status := .pending } else t

/-- Modelled from the spec: restoring a persisted Run keeps every trial
and reclassifies each one (`resume_errored=True`). -/
def resumeRun (s : RunState) : RunState :=
  ⟨s.trials.map reclassify⟩

/-- Number of concurrently running trials. -/
def runningCount (s : RunState) : ℕ :=
  (s.trials.filter fun t => t.status = .running).length

/-- Trials remaining in the budget: `n_trials` minus every trial already
in the history (completed trials count toward the budget). -/
def remainingBudget (budget : ℕ) (s : RunState) : ℕ :=
  budget - s.trials.length

/-- Modelled from the spec: one scheduler transition of a Run with trial
budget `budget`, per-trial compute claim `cpuPer` and resource pool
`pool`.
* `dispatchNew`: propose and start a fresh trial — only while the history
  is below the budget and the pool can accommodate one more running
  trial.
* `startPending`: start a (re-)queued `pending` trial — bounded by the
  pool; it occupies no new budget slot.
* `completeTrial`: the evaluator returns; the trial becomes `completed`.
* `errorTrial`: the evaluator raises, or the run is interrupted with the
  trial in flight; the trial becomes `errored` and the run continues.
* `resumeStep`: a later invocation restores the persisted state
  (`resume_errored=True`), reclassifying errored trials to pending. -/
inductive RunStep (budget cpuPer pool : ℕ) : RunState → RunState → Prop where
  | dispatchNew (s : RunState) :
      s.trials.length < budget →
      (runningCount s + 1) * cpuPer ≤ pool →
      RunStep budget cpuPer pool s
        ⟨s.trials ++ [⟨s.trials.length, .running⟩]⟩
  | startPending (pre post : List Trial) (t : Trial) :
      t.status = .pending →
      (runningCount ⟨pre ++ t :: post⟩ + 1) * cpuPer ≤ pool →
      RunStep budget cpuPer pool ⟨pre ++ t :: post⟩
        ⟨pre ++ { t with status := .running } :: post⟩
  | completeTrial (pre post : List Trial) (t : Trial) :
      t.status = .running →
      RunStep budget cpuPer pool ⟨pre ++ t :: post⟩
        ⟨pre ++ { t with status := .completed } :: post⟩
  | errorTrial (pre post : List Trial) (t : Trial) :
      t.status = .running →
      RunStep budget cpuPer pool ⟨pre ++ t :: post⟩
        ⟨pre ++ { t with status := .errored } :: post⟩
  | resumeStep (s : RunState) :
      RunStep budget cpuPer pool s (resumeRun s)

/-- A Run history: any number of scheduler transitions. -/
def RunReach (budget cpuPer pool : ℕ) : RunState → RunState → Prop :=
  Relation.ReflTransGen (RunStep budget cpuPer pool)

/-- Modelled from the spec: the optimizer's ranking key for a trial under
the primary objective (`mode="max"`): a present score ranks by its value;
a missing primary objective ranks as the worst possible score, strictly
below every numeric score (`WithBot` bottom). -/
def rankScore : Option ℚ → WithBot ℚ
  | none => ⊥
  | some v => (v : WithBot ℚ)

/-! ### Helper lemmas -/

lemma lookupMetric_eq_none_of_not_mem (results : List (String × ℚ))
    (k : String) (h : k ∉ results.map Prod.fst) :
    lookupMetric results k = none := by
  induction results with
  | nil => rfl
  | cons p rest ih =>
      obtain ⟨k', v⟩ := p
      simp only [List.map_cons, List.mem_cons, not_or] at h
      simp [lookupMetric, h.1, ih h.2]

lemma lookupMetric_mem_of_some (results : List (String × ℚ))
    (k : String) (v : ℚ) (h : lookupMetric results k = some v) :
    (k, v) ∈ results := by
  induction results with
  | nil => simp [lookupMetric] at h
  | cons p rest ih =>
      obtain ⟨k', w⟩ := p
      by_cases hk : k = k'
      · rw [lookupMetric, if_pos hk] at h
        obtain rfl := Option.some.injEq _ _ ▸ h
        exact hk ▸ List.mem_cons_self _ _
      · rw [lookupMetric, if_neg hk] at h
        exact List.mem_cons_of_mem _ (ih h)

lemma lookupMetric_eq_some_of_mem (results : List (String × ℚ))
    (k : String) (v : ℚ) (hnd : (results.map Prod.fst).Nodup)
    (h : (k, v) ∈ results) :
    lookupMetric results k = some v := by
  induction results with
  | nil => simp at h
  | cons p rest ih =>
      obtain ⟨k', w⟩ := p
      simp only [List.map_cons, List.nodup_cons] at hnd
      rcases List.mem_cons.1 h with hm | hm <;> clear h
      · obtain ⟨rfl, rfl⟩ := Prod.mk.injEq _ _ _ _ ▸ hm
        simp [lookupMetric]
      · have hk : k ≠ k' := by
          rintro rfl
          exact hnd.1 (List.mem_map_of_mem Prod.fst hm)
        rw [lookupMetric, if_neg hk]
        exact ih hnd.2 hm

lemma keys_nodup_mem_unique {β : Type} (l : List (String × β))
    (a : String) (b c : β) (hnd : (l.map Prod.fst).Nodup)
    (hb : (a, b) ∈ l) (hc : (a, c) ∈ l) : b = c := by
  induction l with
  | nil => simp at hb
  | cons p rest ih =>
      obtain ⟨k', w⟩ := p
      simp only [List.map_cons, List.nodup_cons] at hnd
      rcases List.mem_cons.1 hb with hb' | hb' <;> clear hb <;>
        rcases List.mem_cons.1 hc with hc' | hc' <;> clear hc
      · obtain ⟨rfl, rfl⟩ := Prod.mk.injEq _ _ _ _ ▸ hb'
        exact ((Prod.mk.injEq _ _ _ _ ▸ hc').2).symm
      · obtain ⟨rfl, rfl⟩ := Prod.mk.injEq _ _ _ _ ▸ hb'
        exact absurd (List.mem_map_of_mem Prod.fst hc') hnd.1
      · obtain ⟨rfl, rfl⟩ := Prod.mk.injEq _ _ _ _ ▸ hc'
        exact absurd (List.mem_map_of_mem Prod.fst hb') hnd.1
      · exact ih hnd.2 hb' hc'

/-! ### Claims -/

/-- C3: for every configuration's metrics payload, the objective
projection returns a mapping whose key list is exactly the requested
objective names; each key maps to `some` of the payload's value when the
metric is present (payload keys are unique, as a Python dict's are) and
to the explicit missing marker `none` when absent; the extraction is a
total function (it never raises on a missing key). -/
theorem objective_projection_exact (objectives : List String)
    (results : List (String × ℚ)) :
    ((projectObjectives objectives results).map Prod.fst = objectives)
    ∧ (∀ k v, (k, v) ∈ projectObjectives objectives results →
        v = lookupMetric results k)
    ∧ (∀ k, k ∈ objectives → k ∉ results.map Prod.fst →
        (k, (none : Option ℚ)) ∈ projectObjectives objectives results)
    ∧ (∀ k v, (results.map Prod.fst).Nodup → k ∈ objectives →
        (k, v) ∈ results →
        (k, some v) ∈ projectObjectives objectives results) := by
  refine ⟨?_, ?_, ?_, ?_⟩
  · simp [projectObjectives, Function.comp_def]
  · intro k v hkv
    simp only [projectObjectives, List.mem_map] at hkv
    obtain ⟨a, _, ha⟩ := hkv
    obtain ⟨rfl, rfl⟩ := Prod.mk.injEq _ _ _ _ ▸ ha
    rfl
  · intro k hk habs
    have := lookupMetric_eq_none_of_not_mem results k habs
    simp only [projectObjectives, List.mem_map]
    exact ⟨k, hk, by rw [this]⟩
  · intro k v hnd hk hmem
    have := lookupMetric_eq_some_of_mem results k v hnd hmem
    simp only [projectObjectives, List.mem_map]
    exact ⟨k, hk, by rw [this]⟩

/-- Witness for C3, the spec's own example: payload
`{"HOTA": 61.2, "MOTA": 70.4, "IDF1": 55.0}` and objectives
`["HOTA", "IDF1"]` yield exactly the keys `["HOTA", "IDF1"]`, with
`HOTA ↦ some 61.2` and a missing `CLR` objective mapped to `none`. -/
theorem objective_projection_exact_witness :
    ((projectObjectives ["HOTA", "IDF1"]
        [("HOTA", (306/5 : ℚ)), ("MOTA", 352/5), ("IDF1", 55)]).map Prod.fst
      = ["HOTA", "IDF1"])
    ∧ ("HOTA", some (306/5 : ℚ)) ∈
        projectObjectives ["HOTA", "IDF1"]
          [("HOTA", 306/5), ("MOTA", 352/5), ("IDF1", 55)]
    ∧ ("CLR", (none : Option ℚ)) ∈
        projectObjectives ["HOTA", "IDF1", "CLR"]
          [("HOTA", 306/5), ("MOTA", 352/5), ("IDF1", 55)] := by
  refine ⟨(objective_projection_exact _ _).1, ?_, ?_⟩
  · exact (objective_projection_exact ["HOTA", "IDF1"] _).2.2.2 "HOTA" (306/5)
      (by simp) (by simp) (by simp)
  · exact (objective_projection_exact ["HOTA", "IDF1", "CLR"] _).2.2.1 "CLR"
      (by simp) (by simp)

/-- C8: the evaluator first invokes `run_generate_mot_results` with the
configuration, then `run_trackeval`, then projects; the call trace is
always one of those two prefixes (each collaborator invoked at most once
— no internal retries), and any exception from either collaborator
propagates out unchanged as the evaluator's failure. -/
theorem evaluator_order_and_propagation (c : Collab)
    (objectives : List String) (cfg : Config) :
    ((objective_function c objectives cfg).1 = [.genMotResults cfg]
      ∨ (objective_function c objectives cfg).1
          = [.genMotResults cfg, .runTrackeval])
    ∧ (∀ e, c.run_generate_mot_results cfg = .error e →
        objective_function c objectives cfg
          = ([.genMotResults cfg], .error e))
    ∧ (∀ e, c.run_generate_mot_results cfg = .ok () →
        c.run_trackeval = .error e →
        objective_function c objectives cfg
          = ([.genMotResults cfg, .runTrackeval], .error e))
    ∧ (∀ results, c.run_generate_mot_results cfg = .ok () →
        c.run_trackeval = .ok results →
        objective_function c objectives cfg
          = ([.genMotResults cfg, .runTrackeval],
             .ok (projectObjectives objectives results))) := by
  refine ⟨?_, ?_, ?_, ?_⟩
  · cases hg : c.run_generate_mot_results cfg with
    | error e => left; simp [objective_function, hg]
    | ok u =>
        right
        cases he : c.run_trackeval with
        | error e => simp [objective_function, hg, he]
        | ok r => simp [objective_function, hg, he]
  · intro e hg
    simp [objective_function, hg]
  · intro e hg he
    simp [objective_function, hg, he]
  · intro results hg he
    simp [objective_function, hg, he]

/-- Witness for C8 at a concrete collaborator pair: a failing
`run_trackeval` propagates its error after the generate call. -/
theorem evaluator_order_and_propagation_witness :
    objective_function
        ⟨fun _ => .ok (), .error ⟨"pipeline"⟩⟩ ["HOTA"] [("lr", .num 1)]
      = ([.genMotResults [("lr", .num 1)], .runTrackeval],
         .error ⟨"pipeline"⟩) :=
  (evaluator_order_and_propagation ⟨fun _ => .ok (), .error ⟨"pipeline"⟩⟩
    ["HOTA"] [("lr", .num 1)]).2.2.1 ⟨"pipeline"⟩ rfl rfl

/-- C4: when the primary objective name is absent from the payload, the
evaluator's mapping carries the explicit missing marker (`none`) for it
rather than raising, and the ranking key treats that trial exactly as the
worst possible score: its key is the bottom element, lying at or below
every trial's key, and the ranking order is total (the search can always
compare trials, so it neither crashes nor stalls). -/
theorem missing_primary_ranks_worst (objectives : List String)
    (primary : String) (results : List (String × ℚ))
    (hp : primary ∈ objectives)
    (habs : primary ∉ results.map Prod.fst) :
    ((primary, (none : Option ℚ)) ∈ projectObjectives objectives results)
    ∧ rankScore (lookupMetric results primary) = ⊥
    ∧ (∀ o : Option ℚ, rankScore (lookupMetric results primary) ≤ rankScore o)
    ∧ (∀ a b : Option ℚ, rankScore a ≤ rankScore b ∨ rankScore b ≤ rankScore a) := by
  have hnone := lookupMetric_eq_none_of_not_mem results primary habs
  refine ⟨List.mem_map.2 ⟨primary, hp, by rw [hnone]⟩,
    by rw [hnone]; rfl, ?_, ?_⟩
  · intro o
    rw [hnone]
    exact bot_le
  · intro a b
    exact le_total _ _

/-- Witness for C4: objectives `["HOTA"]` against the payload
`{"MOTA": 70.4}` — the primary `HOTA` is absent, its marker is `none`,
and its rank is bottom. -/
theorem missing_primary_ranks_worst_witness :
    (("HOTA", (none : Option ℚ)) ∈
        projectObjectives ["HOTA"] [("MOTA", (352/5 : ℚ))])
    ∧ rankScore (lookupMetric [("MOTA", (352/5 : ℚ))] "HOTA") = ⊥ := by
  have h := missing_primary_ranks_worst ["HOTA"] "HOTA"
    [("MOTA", (352/5 : ℚ))] (by decide) (by decide)
  exact ⟨h.1, h.2.1⟩

/-- C5: for each of the six recognized kinds, `yaml_to_search_space`'s
dispatch builds the corresponding sampler from the descriptor's declared
fields, and every value that sampler can draw respects the declared
bounds (`low ≤ v < high` for the numeric kinds) or listed options. -/
theorem search_space_builder_bounds (d : ParamDetails) (low high q : ℚ) :
    (d.type = some "uniform" → d.range = [low, high] →
      buildEntry d = some (.uniform low high) ∧
      ∀ v, (SpaceEntry.uniform low high).canDraw v →
        ∃ x : ℚ, v = .num x ∧ low ≤ x ∧ x < high)
    ∧ (d.type = some "loguniform" → d.range = [low, high] →
      buildEntry d = some (.loguniform low high) ∧
      ∀ v, (SpaceEntry.loguniform low high).canDraw v →
        ∃ x : ℚ, v = .num x ∧ low ≤ x ∧ x < high)
    ∧ (d.type = some "randint" → d.range = [low, high] →
      buildEntry d = some (.randint low high) ∧
      ∀ v, (SpaceEntry.randint low high).canDraw v →
        ∃ x : ℚ, v = .num x ∧ low ≤ x ∧ x < high)
    ∧ (d.type = some "qrandint" → d.range = [low, high, q] →
      buildEntry d = some (.qrandint low high q) ∧
      ∀ v, (SpaceEntry.qrandint low high q).canDraw v →
        ∃ x : ℚ, v = .num x ∧ low ≤ x ∧ x < high)
    ∧ (d.type = some "choice" →
      buildEntry d = some (.choice d.options) ∧
      ∀ v, (SpaceEntry.choice d.options).canDraw v → v ∈ d.options)
    ∧ (d.type = some "grid_search" →
      buildEntry d = some (.grid_search d.values) ∧
      ∀ v, (SpaceEntry.grid_search d.values).canDraw v → v ∈ d.values) := by
  refine ⟨?_, ?_, ?_, ?_, ?_, ?_⟩
  · intro ht hr
    refine ⟨by simp [buildEntry, ht, hr], ?_⟩
    intro v hv
    cases v with
    | num x => exact ⟨x, rfl, hv.1, hv.2⟩
    | str s => exact hv.elim
  · intro ht hr
    refine ⟨by simp [buildEntry, ht, hr], ?_⟩
    intro v hv
    cases v with
    | num x => exact ⟨x, rfl, hv.1, hv.2⟩
    | str s => exact hv.elim
  · intro ht hr
    refine ⟨by simp [buildEntry, ht, hr], ?_⟩
    intro v hv
    cases v with
    | num x => exact ⟨x, rfl, hv.2.1, hv.2.2⟩
    | str s => exact hv.elim
  · intro ht hr
    refine ⟨by simp [buildEntry, ht, hr], ?_⟩
    intro v hv
    cases v with
    | num x => exact ⟨x, rfl, hv.2.1, hv.2.2.1⟩
    | str s => exact hv.elim
  · intro ht
    exact ⟨by simp [buildEntry, ht], fun v hv => by cases v <;> exact hv⟩
  · intro ht
    exact ⟨by simp [buildEntry, ht], fun v hv => by cases v <;> exact hv⟩

/-- Witness for C5: a `uniform` descriptor over `[0, 1]` builds
`tune.uniform 0 1`, and the drawn value `1/2` lies within the bounds. -/
theorem search_space_builder_bounds_witness :
    buildEntry ⟨some "uniform", [0, 1], [], []⟩ = some (.uniform 0 1)
    ∧ ∃ x : ℚ, Val.num (1/2) = .num x ∧ 0 ≤ x ∧ x < 1 :=
  ⟨((search_space_builder_bounds ⟨some "uniform", [0, 1], [], []⟩
      0 1 0).1 rfl rfl).1,
   ((search_space_builder_bounds ⟨some "uniform", [0, 1], [], []⟩
      0 1 0).1 rfl rfl).2 (.num (1/2)) ⟨by norm_num, by norm_num⟩⟩

/-- C6: a descriptor whose kind is none of the six recognized strings
builds no sampler, and its parameter is absent from the resulting search
space; the builder is a total function, so no error is raised. -/
theorem unrecognized_kind_dropped (config : List (String × ParamDetails))
    (param : String) (d : ParamDetails)
    (hmem : (param, d) ∈ config)
    (hnd : (config.map Prod.fst).Nodup)
    (hk : d.type ∉ ([some "uniform", some "randint", some "qrandint",
        some "choice", some "grid_search", some "loguniform"] :
        List (Option String))) :
    buildEntry d = none
    ∧ param ∉ (yaml_to_search_space config).map Prod.fst := by
  simp only [List.mem_cons, List.not_mem_nil, or_false, not_or] at hk
  obtain ⟨h1, h2, h3, h4, h5, h6⟩ := hk
  have hnone : buildEntry d = none := by
    simp [buildEntry, h1, h2, h3, h4, h5, h6]
  refine ⟨hnone, ?_⟩
  intro habs
  obtain ⟨pe, hpe, hp⟩ := List.mem_map.1 habs
  obtain ⟨pd, had, hsome⟩ := List.mem_filterMap.1 hpe
  obtain ⟨a, d'⟩ := pd
  obtain ⟨e', he', hpair⟩ := Option.map_eq_some'.1 hsome
  have ha : a = param := by rw [← hp, ← hpair]
  rw [ha] at had
  have hd : d' = d := keys_nodup_mem_unique config param d' d hnd had hmem
  rw [hd, hnone] at he'
  exact Option.noConfusion he'

/-- Witness for C6: a descriptor of kind `"normal"` (unrecognized) leaves
its parameter out of the search space. -/
theorem unrecognized_kind_dropped_witness :
    buildEntry ⟨some "normal", [0, 1], [], []⟩ = none
    ∧ "sigma" ∉ (yaml_to_search_space
        [("sigma", ⟨some "normal", [0, 1], [], []⟩),
         ("lr", ⟨some "uniform", [0, 1], [], []⟩)]).map Prod.fst :=
  unrecognized_kind_dropped
    [("sigma", ⟨some "normal", [0, 1], [], []⟩),
     ("lr", ⟨some "uniform", [0, 1], [], []⟩)]
    "sigma" ⟨some "normal", [0, 1], [], []⟩
    (by simp) (by simp) (by simp)

/-- C7: `main` resumes exactly when `tune.Tuner.can_restore` holds of the
deterministically computed path `{project}/ray/{tracking_method}_tune`;
two filesystem states agreeing on that one path yield the same
resume-vs-fresh decision, whatever the schema contents. -/
theorem resume_decision_sole_signal (num_threads : ℕ)
    (f g : List String → Bool) (args : Args)
    (y1 y2 : List (String × ParamDetails)) :
    ((main_tuner num_threads f args y1).isResumed
        = f (args.project ++ ["ray", args.tracking_method ++ "_tune"]))
    ∧ (f (args.project ++ ["ray", args.tracking_method ++ "_tune"])
          = g (args.project ++ ["ray", args.tracking_method ++ "_tune"]) →
        (main_tuner num_threads f args y1).isResumed
          = (main_tuner num_threads g args y2).isResumed) := by
  have key : ∀ (f' : List String → Bool) (y : List (String × ParamDetails)),
      (main_tuner num_threads f' args y).isResumed
        = f' (args.project ++ ["ray", args.tracking_method ++ "_tune"]) := by
    intro f' y
    cases hf : f' (args.project ++ ["ray", args.tracking_method ++ "_tune"]) with
    | true => simp [main_tuner, hf, TunerSpec.isResumed]
    | false => simp [main_tuner, hf, TunerSpec.isResumed]
  exact ⟨key f y1, fun h => by rw [key f y1, key g y2, h]⟩

/-- Witness for C7 at a concrete filesystem and arguments: a state with a
restorable run at `proj/ray/botsort_tune` resumes, and a second state
agreeing there decides identically. -/
theorem resume_decision_sole_signal_witness :
    ((main_tuner 4 (fun p => p = ["proj", "ray", "botsort_tune"])
        ⟨"botsort", ["proj"], ["HOTA"], 5⟩ []).isResumed = true)
    ∧ ((main_tuner 4 (fun p => p = ["proj", "ray", "botsort_tune"])
          ⟨"botsort", ["proj"], ["HOTA"], 5⟩ []).isResumed
        = (main_tuner 4 (fun _ => true)
            ⟨"botsort", ["proj"], ["HOTA"], 5⟩
            [("lr", ⟨some "uniform", [0, 1], [], []⟩)]).isResumed) := by
  have h := resume_decision_sole_signal 4
    (fun p => p = ["proj", "ray", "botsort_tune"]) (fun _ => true)
    ⟨"botsort", ["proj"], ["HOTA"], 5⟩ []
    [("lr", ⟨some "uniform", [0, 1], [], []⟩)]
  exact ⟨h.1.trans (by decide), h.2 (by decide)⟩

/-- C9: when the persisted run is restorable, the tuner `main` builds is
`Tuner.restore(restore_path, trainable=trainable, resume_errored=True)` —
only the path and the trainable, not the freshly rebuilt search space nor
the new `OptunaSearch` — so any two schema-file contents give the
identical resumed tuner. -/
theorem resumed_run_ignores_schema (num_threads : ℕ)
    (can_restore : List String → Bool) (args : Args)
    (y1 y2 : List (String × ParamDetails))
    (h : can_restore
        (args.project ++ ["ray", args.tracking_method ++ "_tune"]) = true) :
    main_tuner num_threads can_restore args y1
        = TunerSpec.restored
            (args.project ++ ["ray", args.tracking_method ++ "_tune"])
            ⟨args, num_threads, 0⟩ true
    ∧ main_tuner num_threads can_restore args y1
        = main_tuner num_threads can_restore args y2 := by
  have key : ∀ y : List (String × ParamDetails),
      main_tuner num_threads can_restore args y
        = TunerSpec.restored
            (args.project ++ ["ray", args.tracking_method ++ "_tune"])
            ⟨args, num_threads, 0⟩ true := by
    intro y
    simp [main_tuner, h]
  exact ⟨key y1, (key y1).trans (key y2).symm⟩

/-- Witness for C9: with a restorable run on disk, an empty schema and a
one-parameter schema produce the same restored tuner. -/
theorem resumed_run_ignores_schema_witness :
    main_tuner 4 (fun _ => true) ⟨"botsort", ["proj"], ["HOTA"], 5⟩ []
        = TunerSpec.restored ["proj", "ray", "botsort_tune"]
            ⟨⟨"botsort", ["proj"], ["HOTA"], 5⟩, 4, 0⟩ true
    ∧ main_tuner 4 (fun _ => true) ⟨"botsort", ["proj"], ["HOTA"], 5⟩ []
        = main_tuner 4 (fun _ => true) ⟨"botsort", ["proj"], ["HOTA"], 5⟩
            [("lr", ⟨some "uniform", [0, 1], [], []⟩)] := by
  have h := resumed_run_ignores_schema 4 (fun _ => true)
    ⟨"botsort", ["proj"], ["HOTA"], 5⟩ []
    [("lr", ⟨some "uniform", [0, 1], [], []⟩)] rfl
  exact ⟨h.1.trans (by decide), h.2⟩

/-! ### Scheduler lemmas -/

lemma reclassify_status (t : Trial) :
    (reclassify t).status
      = if t.status = .errored then .pending else t.status := by
  unfold reclassify
  split <;> rfl

lemma reclassify_id (t : Trial) : (reclassify t).id = t.id := by
  unfold reclassify
  split <;> rfl

lemma reclassify_of_completed (t : Trial) (h : t.status = .completed) :
    reclassify t = t := by
  unfold reclassify
  rw [h]
  rfl

lemma resumeRun_length (s : RunState) :
    (resumeRun s).trials.length = s.trials.length := by
  simp [resumeRun]

lemma runningCount_append_cons (pre post : List Trial) (t : Trial) :
    runningCount ⟨pre ++ t :: post⟩
      = runningCount ⟨pre⟩ + (if t.status = .running then 1 else 0)
          + runningCount ⟨post⟩ := by
  by_cases hr : t.status = TStatus.running <;>
    simp [runningCount, List.filter_append, List.filter_cons, hr]
  omega

lemma runningCount_resumeRun (s : RunState) :
    runningCount (resumeRun s) = runningCount s := by
  obtain ⟨l⟩ := s
  induction l with
  | nil => rfl
  | cons t rest ih =>
      have hst : ((reclassify t).status = TStatus.running)
          = (t.status = TStatus.running) := by
        rw [reclassify_status]
        split <;> simp_all
      simp only [resumeRun, List.map_cons] at ih ⊢
      simp only [runningCount, List.filter_cons, hst] at ih ⊢
      split <;> simp [ih]

lemma step_length_le {budget cpuPer pool : ℕ} {s s' : RunState}
    (h : RunStep budget cpuPer pool s s') :
    s.trials.length ≤ s'.trials.length := by
  cases h <;> simp [resumeRun_length]

lemma step_length_budget {budget cpuPer pool : ℕ} {s s' : RunState}
    (h : RunStep budget cpuPer pool s s') (hs : s.trials.length ≤ budget) :
    s'.trials.length ≤ budget := by
  cases h with
  | dispatchNew s hb hp => simpa using hb
  | startPending pre post t ht hp => simpa using hs
  | completeTrial pre post t ht => simpa using hs
  | errorTrial pre post t ht => simpa using hs
  | resumeStep s => simpa [resumeRun_length] using hs

lemma step_pool {budget cpuPer pool : ℕ} {s s' : RunState}
    (h : RunStep budget cpuPer pool s s')
    (hs : runningCount s * cpuPer ≤ pool) :
    runningCount s' * cpuPer ≤ pool := by
  cases h with
  | dispatchNew s hb hp =>
      have : runningCount ⟨s.trials ++ [⟨s.trials.length, .running⟩]⟩
          = runningCount s + 1 := by
        simp [runningCount, List.filter_append, List.filter_cons]
      rw [this]
      exact hp
  | startPending pre post t ht hp =>
      rw [runningCount_append_cons] at hp ⊢
      simp only [ht] at hp
      simp only [show Trial.status { t with status := .running } = .running
        from rfl] at *
      simp at hp ⊢
      calc (runningCount ⟨pre⟩ + 1 + runningCount ⟨post⟩) * cpuPer
          = (runningCount ⟨pre⟩ + runningCount ⟨post⟩ + 1) * cpuPer := by
            ring
        _ ≤ pool := hp
  | completeTrial pre post t ht =>
      rw [runningCount_append_cons] at hs ⊢
      simp only [ht] at hs
      simp at hs ⊢
      calc (runningCount ⟨pre⟩ + runningCount ⟨post⟩) * cpuPer
          ≤ (runningCount ⟨pre⟩ + 1 + runningCount ⟨post⟩) * cpuPer := by
            apply Nat.mul_le_mul_right
            omega
        _ ≤ pool := by
            calc (runningCount ⟨pre⟩ + 1 + runningCount ⟨post⟩) * cpuPer
                = (runningCount ⟨pre⟩ + (1 + runningCount ⟨post⟩)) * cpuPer := by
                  ring
              _ ≤ pool := by simpa [Nat.add_assoc] using hs
  | errorTrial pre post t ht =>
      rw [runningCount_append_cons] at hs ⊢
      simp only [ht] at hs
      simp at hs ⊢
      calc (runningCount ⟨pre⟩ + runningCount ⟨post⟩) * cpuPer
          ≤ (runningCount ⟨pre⟩ + 1 + runningCount ⟨post⟩) * cpuPer := by
            apply Nat.mul_le_mul_right
            omega
        _ ≤ pool := by
            calc (runningCount ⟨pre⟩ + 1 + runningCount ⟨post⟩) * cpuPer
                = (runningCount ⟨pre⟩ + (1 + runningCount ⟨post⟩)) * cpuPer := by
                  ring
              _ ≤ pool := by simpa [Nat.add_assoc] using hs
  | resumeStep s =>
      rw [runningCount_resumeRun]
      exact hs

lemma step_keeps_completed {budget cpuPer pool : ℕ} {s s' : RunState}
    (h : RunStep budget cpuPer pool s s') (t : Trial)
    (hmem : t ∈ s.trials) (hc : t.status = .completed) :
    t ∈ s'.trials := by
  cases h with
  | dispatchNew s hb hp =>
      exact List.mem_append_left _ hmem
  | startPending pre post u hu hp =>
      rcases List.mem_append.1 hmem with hm | hm
      · exact List.mem_append_left _ hm
      · rcases List.mem_cons.1 hm with hm | hm
        · rw [hm] at hc
          rw [hu] at hc
          exact TStatus.noConfusion hc
        · exact List.mem_append_right _ (List.mem_cons_of_mem _ hm)
  | completeTrial pre post u hu =>
      rcases List.mem_append.1 hmem with hm | hm
      · exact List.mem_append_left _ hm
      · rcases List.mem_cons.1 hm with hm | hm
        · rw [hm] at hc
          rw [hu] at hc
          exact TStatus.noConfusion hc
        · exact List.mem_append_right _ (List.mem_cons_of_mem _ hm)
  | errorTrial pre post u hu =>
      rcases List.mem_append.1 hmem with hm | hm
      · exact List.mem_append_left _ hm
      · rcases List.mem_cons.1 hm with hm | hm
        · rw [hm] at hc
          rw [hu] at hc
          exact TStatus.noConfusion hc
        · exact List.mem_append_right _ (List.mem_cons_of_mem _ hm)
  | resumeStep s =>
      have : reclassify t = t := reclassify_of_completed t hc
      exact this ▸ List.mem_map_of_mem reclassify hmem

/-- C1: on resume (`resume_errored=True`), every persisted trial whose
status was `errored` is reclassified `pending` (re-queued for dispatch)
and every other trial keeps its status — in particular a `completed`
trial is never re-dispatched, staying in the history untouched through
every later scheduler step; resuming with zero errored trials changes
nothing, so the remaining-budget count equals an uninterrupted run's at
the same point. -/
theorem resume_redispatch_policy (s : RunState) (budget : ℕ) :
    (∀ i (h : i < s.trials.length) (h' : i < (resumeRun s).trials.length),
      ((resumeRun s).trials.get ⟨i, h'⟩).status
        = if (s.trials.get ⟨i, h⟩).status = .errored then .pending
          else (s.trials.get ⟨i, h⟩).status)
    ∧ (∀ budget' cpuPer pool (s' : RunState),
        RunReach budget' cpuPer pool s s' →
        ∀ t, t ∈ s.trials → t.status = .completed → t ∈ s'.trials)
    ∧ ((∀ t ∈ s.trials, t.status ≠ .errored) →
        resumeRun s = s
        ∧ remainingBudget budget (resumeRun s)
            = remainingBudget budget s) := by
  refine ⟨?_, ?_, ?_⟩
  · intro i h h'
    have hget : (resumeRun s).trials.get ⟨i, h'⟩
        = reclassify (s.trials.get ⟨i, h⟩) := by
      simp [resumeRun]
    rw [hget, reclassify_status]
  · intro budget' cpuPer pool s' hreach t hmem hc
    induction hreach with
    | refl => exact hmem
    | tail hab hbc ih => exact step_keeps_completed hbc t ih hc
  · intro hne
    have hmap : ∀ l : List Trial, (∀ t ∈ l, t.status ≠ .errored) →
        l.map reclassify = l := by
      intro l
      induction l with
      | nil => intro _; rfl
      | cons t rest ih =>
          intro hl
          have ht : reclassify t = t := by
            unfold reclassify
            rw [if_neg (hl t (List.mem_cons_self t rest))]
          simp only [List.map_cons, ht,
            ih fun u hu => hl u (List.mem_cons_of_mem t hu)]
    have h1 : resumeRun s = s := by
      unfold resumeRun
      rw [hmap s.trials hne]
    exact ⟨h1, by rw [h1]⟩

/-- Witness for C1: in a persisted history with trial 0 `completed` and
trial 1 `errored`, resume turns trial 1 `pending`, keeps trial 0
`completed`, and on an errored-free history leaves the remaining budget
unchanged. -/
theorem resume_redispatch_policy_witness :
    (((resumeRun ⟨[⟨0, .completed⟩, ⟨1, .errored⟩]⟩).trials.get
        ⟨1, by simp [resumeRun]⟩).status = .pending)
    ∧ (((resumeRun ⟨[⟨0, .completed⟩, ⟨1, .errored⟩]⟩).trials.get
        ⟨0, by simp [resumeRun]⟩).status = .completed)
    ∧ remainingBudget 5 (resumeRun ⟨[⟨0, .completed⟩]⟩)
        = remainingBudget 5 ⟨[⟨0, .completed⟩]⟩ := by
  refine ⟨?_, ?_, ?_⟩
  · exact ((resume_redispatch_policy ⟨[⟨0, .completed⟩, ⟨1, .errored⟩]⟩ 5).1
      1 (by decide) (by simp [resumeRun])).trans (by decide)
  · exact ((resume_redispatch_policy ⟨[⟨0, .completed⟩, ⟨1, .errored⟩]⟩ 5).1
      0 (by decide) (by simp [resumeRun])).trans (by decide)
  · exact ((resume_redispatch_policy ⟨[⟨0, .completed⟩]⟩ 5).2.2
      (by decide)).2

/-- C2: starting from a fresh Run, along any sequence of scheduler steps
— dispatches, completions, failures, interruptions and resumes — the
total number of trials ever dispatched (each occupying one slot of the
persisted history, completed trials included) never exceeds the
configured budget `n_trials`. -/
theorem total_dispatched_bounded (budget cpuPer pool : ℕ) (s : RunState)
    (h : RunReach budget cpuPer pool initRun s) :
    s.trials.length ≤ budget := by
  induction h with
  | refl => exact Nat.zero_le budget
  | tail hab hbc ih => exact step_length_budget hbc ih

/-- Witness for C2: one dispatched trial against a budget of 5. -/
theorem total_dispatched_bounded_witness :
    (⟨[⟨0, .running⟩]⟩ : RunState).trials.length ≤ 5 :=
  total_dispatched_bounded 5 1 4 ⟨[⟨0, .running⟩]⟩
    (Relation.ReflTransGen.single
      (RunStep.dispatchNew initRun (by decide) (by decide)))

/-- C10: on either branch, the trainable `main` hands the tuner requests
exactly `NUM_THREADS` CPUs and 0 GPUs per trial
(`tune.with_resources(tune_wrapper, {"cpu": NUM_THREADS, "gpu": 0})`),
and along any run the concurrently running trials' combined compute
claims never exceed the fixed pool. -/
theorem trial_resources_and_pool (num_threads : ℕ)
    (can_restore : List String → Bool) (args : Args)
    (yaml_cfg : List (String × ParamDetails)) :
    ((main_tuner num_threads can_restore args yaml_cfg).trainable.cpu
        = num_threads
      ∧ (main_tuner num_threads can_restore args yaml_cfg).trainable.gpu
        = 0)
    ∧ (∀ budget cpuPer pool (s : RunState),
        RunReach budget cpuPer pool initRun s →
        runningCount s * cpuPer ≤ pool) := by
  constructor
  · simp only [main_tuner]
    split <;> exact ⟨rfl, rfl⟩
  · intro budget cpuPer pool s h
    induction h with
    | refl => simp [runningCount, initRun]
    | tail hab hbc ih => exact step_pool hbc ih

/-- Witness for C10: concrete arguments give a 4-CPU, 0-GPU trainable,
and the empty run respects a pool of 8 with 4 CPUs per trial. -/
theorem trial_resources_and_pool_witness :
    ((main_tuner 4 (fun _ => false)
        ⟨"botsort", ["proj"], ["HOTA"], 5⟩ []).trainable.cpu = 4)
    ∧ ((main_tuner 4 (fun _ => false)
        ⟨"botsort", ["proj"], ["HOTA"], 5⟩ []).trainable.gpu = 0)
    ∧ runningCount initRun * 4 ≤ 8 := by
  have h := trial_resources_and_pool 4 (fun _ => false)
    ⟨"botsort", ["proj"], ["HOTA"], 5⟩ []
  exact ⟨h.1.1, h.1.2, h.2 5 4 8 initRun Relation.ReflTransGen.refl⟩

end Evolve
